import Mathlib

/-!
Shallow embedding of the numerical ordination core of the `diversity`
repository: the Bray-Curtis dissimilarity-matrix builders, the PCoA engine of
`src/components/PCAVisualization.tsx` (first variant), the isotonic-regression
(Pool Adjacent Violators) routine, and the NMDS stress/convergence reporting of
the `NMDSVisualization` variants.

Modelling conventions:
* JavaScript IEEE-754 numbers are modelled by exact rationals (`ℚ`).
* `Math.sqrt` and `Math.exp` are modelled by explicit function parameters
  (`sq`, `ex`): every theorem below quantifies over them, so nothing proved
  here depends on any property of the float implementations.
* `Math.random()` is modelled by an explicit stream `rand : ℕ → ℚ` of draws;
  distinct call sites read distinct indices of the stream.
* JavaScript `Array.sort` (stable) is modelled by a stable insertion sort,
  which agrees with any stable comparison sort.
* Reading an absent array slot (`undefined`) in a position that JavaScript
  subsequently treats as `0` (e.g. `x || 0`, unassigned result slots) is
  modelled by `List.getD _ _ 0`.
-/

namespace Diversity

/-- A sampled community, from the `Community` interface of
`src/components/PCAVisualization.tsx`: a species list and the matching
abundance list. -/
structure Community where
  id : ℤ
  species : List ℤ
  abundance : List ℚ
deriving DecidableEq

instance : Inhabited Community := ⟨⟨0, [], []⟩⟩

/-- Insert an integer into an ascending list, keeping it ascending. -/
def insertAsc (x : ℤ) : List ℤ → List ℤ
  | [] => [x]
  | y :: ys => if x ≤ y then x :: y :: ys else y :: insertAsc x ys

/-- Ascending sort of integers, modelling the JavaScript
`Array.sort((a, b) => a - b)` (on distinct keys any comparison sort agrees). -/
def sortAsc (l : List ℤ) : List ℤ := l.foldr insertAsc []

theorem insertAsc_perm (x : ℤ) (l : List ℤ) : List.Perm (insertAsc x l) (x :: l) := by
  induction l with
  | nil => simp [insertAsc]
  | cons y ys ih =>
    by_cases h : x ≤ y
    · simp [insertAsc, h]
    · simp only [insertAsc, if_neg h]
      exact (ih.cons y).trans (List.Perm.swap x y ys)

theorem sortAsc_perm (l : List ℤ) : List.Perm (sortAsc l) l := by
  induction l with
  | nil => rfl
  | cons x xs ih =>
    simpa [sortAsc] using (insertAsc_perm x (sortAsc xs)).trans (ih.cons x)

theorem mem_sortAsc {x : ℤ} {l : List ℤ} : x ∈ sortAsc l ↔ x ∈ l :=
  (sortAsc_perm l).mem_iff

theorem nodup_sortAsc {l : List ℤ} (h : l.Nodup) : (sortAsc l).Nodup :=
  (sortAsc_perm l).nodup_iff.mpr h

/-- The sorted species universe built from the union of all species of all
communities (`new Set`, then a numeric sort) — PCoA component,
`PCAVisualization.tsx` lines 21-26. -/
def speciesListP (cs : List Community) : List ℤ :=
  sortAsc (cs.flatMap Community.species).dedup

/-- Abundance of species `s` in community `c`: `community.species.indexOf(species)`
then the abundance at that index, `0` when the species is absent
(`PCAVisualization.tsx` lines 29-34). -/
def abundanceOf (c : Community) (s : ℤ) : ℚ :=
  if s ∈ c.species then c.abundance.getD (c.species.indexOf s) 0 else 0

/-- One entry of the Bray-Curtis dissimilarity matrix
(`PCAVisualization.tsx` lines 37-60): zero on the diagonal, otherwise
`1 - 2·Σ min / Σ (xi + xj)`, with the whole entry `0` when the denominator is
not positive. -/
def bcEntryP (cs : List Community) (i j : ℕ) : ℚ :=
  if i = j then 0 else
    let sl := speciesListP cs
    let ci := cs.getD i default
    let cj := cs.getD j default
    let num := (sl.map (fun s => min (abundanceOf ci s) (abundanceOf cj s))).sum
    let den := (sl.map (fun s => abundanceOf ci s + abundanceOf cj s)).sum
    if 0 < den then 1 - 2 * num / den else 0

/-- The full Bray-Curtis dissimilarity matrix of the PCoA component
(`brayCurtis` in `PCAVisualization.tsx`). -/
def buildDissimilarityMatrixP (cs : List Community) : List (List ℚ) :=
  (List.range cs.length).map fun i =>
    (List.range cs.length).map fun j => bcEntryP cs i j

/-- Matrix entry accessor; out-of-range reads default to `0`. -/
def dEntry (M : List (List ℚ)) (i j : ℕ) : ℚ := (M.getD i []).getD j 0

theorem getD_map_range {α : Type} (f : ℕ → α) (n i : ℕ) (d : α) :
    ((List.range n).map f).getD i d = if i < n then f i else d := by
  by_cases h : i < n
  · rw [List.getD_eq_getElem _ _ (by simpa using h)]
    simp [h]
  · rw [List.getD_eq_default _ _ (by simpa using Nat.le_of_not_lt h)]
    simp [h]

theorem dEntry_build (cs : List Community) (i j : ℕ) :
    dEntry (buildDissimilarityMatrixP cs) i j =
      if i < cs.length ∧ j < cs.length then bcEntryP cs i j else 0 := by
  unfold dEntry buildDissimilarityMatrixP
  rw [getD_map_range]
  by_cases hi : i < cs.length
  · rw [if_pos hi, getD_map_range]
    by_cases hj : j < cs.length
    · simp [hi, hj]
    · simp [hi, hj]
  · simp [hi, List.getD]

theorem abundanceOf_nonneg {c : Community} (h : ∀ a ∈ c.abundance, 0 ≤ a)
    (s : ℤ) : 0 ≤ abundanceOf c s := by
  unfold abundanceOf
  split
  · by_cases hk : c.species.indexOf s < c.abundance.length
    · rw [List.getD_eq_getElem _ _ hk]
      exact h _ (List.getElem_mem hk)
    · rw [List.getD_eq_default _ _ (Nat.le_of_not_lt hk)]
  · exact le_refl 0

theorem bcEntryP_symm (cs : List Community) (i j : ℕ) :
    bcEntryP cs i j = bcEntryP cs j i := by
  unfold bcEntryP
  by_cases hij : i = j
  · simp [hij]
  · rw [if_neg hij, if_neg (Ne.symm hij)]
    have hnum : (speciesListP cs).map
        (fun s => min (abundanceOf (cs.getD i default) s) (abundanceOf (cs.getD j default) s)) =
        (speciesListP cs).map
        (fun s => min (abundanceOf (cs.getD j default) s) (abundanceOf (cs.getD i default) s)) :=
      List.map_congr_left fun s _ => min_comm _ _
    have hden : (speciesListP cs).map
        (fun s => abundanceOf (cs.getD i default) s + abundanceOf (cs.getD j default) s) =
        (speciesListP cs).map
        (fun s => abundanceOf (cs.getD j default) s + abundanceOf (cs.getD i default) s) :=
      List.map_congr_left fun s _ => add_comm _ _
    simp only [hnum, hden]

theorem bcEntryP_bounds (cs : List Community)
    (hab : ∀ c ∈ cs, ∀ a ∈ c.abundance, 0 ≤ a) (i j : ℕ)
    (hi : i < cs.length) (hj : j < cs.length) :
    0 ≤ bcEntryP cs i j ∧ bcEntryP cs i j ≤ 1 := by
  unfold bcEntryP
  by_cases hij : i = j
  · simp [hij]
  · rw [if_neg hij]
    have hci : ∀ a ∈ (cs.getD i default).abundance, 0 ≤ a := by
      intro a ha
      exact hab _ (by rw [List.getD_eq_getElem _ _ hi]; exact List.getElem_mem hi) a ha
    have hcj : ∀ a ∈ (cs.getD j default).abundance, 0 ≤ a := by
      intro a ha
      exact hab _ (by rw [List.getD_eq_getElem _ _ hj]; exact List.getElem_mem hj) a ha
    set num := ((speciesListP cs).map
      (fun s => min (abundanceOf (cs.getD i default) s) (abundanceOf (cs.getD j default) s))).sum with hnum
    set den := ((speciesListP cs).map
      (fun s => abundanceOf (cs.getD i default) s + abundanceOf (cs.getD j default) s)).sum with hden
    by_cases hd : 0 < den
    · rw [if_pos hd]
      have h0num : 0 ≤ num := by
        rw [hnum]
        apply List.sum_nonneg
        intro x hx
        obtain ⟨s, _, rfl⟩ := List.mem_map.mp hx
        exact le_min (abundanceOf_nonneg hci s) (abundanceOf_nonneg hcj s)
      have h2num : 2 * num ≤ den := by
        rw [hnum, hden, ← List.sum_map_mul_left]
        apply List.sum_le_sum
        intro s _
        have h1 := min_le_left (abundanceOf (cs.getD i default) s) (abundanceOf (cs.getD j default) s)
        have h2 := min_le_right (abundanceOf (cs.getD i default) s) (abundanceOf (cs.getD j default) s)
        calc 2 * min (abundanceOf (cs.getD i default) s) (abundanceOf (cs.getD j default) s)
            = min (abundanceOf (cs.getD i default) s) (abundanceOf (cs.getD j default) s) +
              min (abundanceOf (cs.getD i default) s) (abundanceOf (cs.getD j default) s) := by ring
          _ ≤ abundanceOf (cs.getD i default) s + abundanceOf (cs.getD j default) s :=
              add_le_add h1 h2
      constructor
      · have : 2 * num / den ≤ 1 := (div_le_one hd).mpr h2num
        linarith
      · have : 0 ≤ 2 * num / den := div_nonneg (by linarith) (le_of_lt hd)
        linarith
    · rw [if_neg hd]
      norm_num

/-- Claim C2: for every community set with non-negative abundances, the
Bray-Curtis matrix of the PCoA component is symmetric, has zero diagonal, and
every entry lies in `[0, 1]`. -/
theorem brayCurtis_symm_diag_bounds (cs : List Community)
    (hab : ∀ c ∈ cs, ∀ a ∈ c.abundance, 0 ≤ a) (i j : ℕ) :
    dEntry (buildDissimilarityMatrixP cs) i j = dEntry (buildDissimilarityMatrixP cs) j i ∧
    dEntry (buildDissimilarityMatrixP cs) i i = 0 ∧
    0 ≤ dEntry (buildDissimilarityMatrixP cs) i j ∧
    dEntry (buildDissimilarityMatrixP cs) i j ≤ 1 := by
  refine ⟨?_, ?_, ?_, ?_⟩
  · rw [dEntry_build, dEntry_build, bcEntryP_symm]
    by_cases hi : i < cs.length <;> by_cases hj : j < cs.length <;> simp [hi, hj]
  · rw [dEntry_build]
    split
    · unfold bcEntryP
      simp
    · rfl
  · rw [dEntry_build]
    split
    · exact (bcEntryP_bounds cs hab i j (by tauto) (by tauto)).1
    · exact le_refl 0
  · rw [dEntry_build]
    split
    · exact (bcEntryP_bounds cs hab i j (by tauto) (by tauto)).2
    · norm_num

/-- Witness for C2 at a concrete community set. -/
theorem brayCurtis_symm_diag_bounds_witness :
    (∀ c ∈ [Community.mk 1 [1, 2] [10, 10], Community.mk 2 [3, 4] [5, 5],
        Community.mk 3 [1] [7]], ∀ a ∈ c.abundance, 0 ≤ a) ∧
    (dEntry (buildDissimilarityMatrixP [Community.mk 1 [1, 2] [10, 10],
        Community.mk 2 [3, 4] [5, 5], Community.mk 3 [1] [7]]) 0 1 =
      dEntry (buildDissimilarityMatrixP [Community.mk 1 [1, 2] [10, 10],
        Community.mk 2 [3, 4] [5, 5], Community.mk 3 [1] [7]]) 1 0 ∧
    dEntry (buildDissimilarityMatrixP [Community.mk 1 [1, 2] [10, 10],
        Community.mk 2 [3, 4] [5, 5], Community.mk 3 [1] [7]]) 0 0 = 0 ∧
    0 ≤ dEntry (buildDissimilarityMatrixP [Community.mk 1 [1, 2] [10, 10],
        Community.mk 2 [3, 4] [5, 5], Community.mk 3 [1] [7]]) 0 1 ∧
    dEntry (buildDissimilarityMatrixP [Community.mk 1 [1, 2] [10, 10],
        Community.mk 2 [3, 4] [5, 5], Community.mk 3 [1] [7]]) 0 1 ≤ 1) :=
  ⟨by decide, brayCurtis_symm_diag_bounds _ (by decide) 0 1⟩

theorem mem_speciesListP {cs : List Community} {c : Community} (hc : c ∈ cs)
    {s : ℤ} (hs : s ∈ c.species) : s ∈ speciesListP cs := by
  unfold speciesListP
  rw [mem_sortAsc, List.mem_dedup]
  exact List.mem_flatMap.mpr ⟨c, hc, hs⟩

theorem getD_mem_of_lt {cs : List Community} {i : ℕ} (hi : i < cs.length) :
    cs.getD i default ∈ cs := by
  rw [List.getD_eq_getElem _ _ hi]
  exact List.getElem_mem hi

theorem abundanceOf_getElem {c : Community} (hnd : c.species.Nodup)
    {k : ℕ} (hk : k < c.species.length) :
    abundanceOf c c.species[k] = c.abundance.getD k 0 := by
  unfold abundanceOf
  rw [if_pos (List.getElem_mem hk), List.indexOf_getElem hnd k hk]

theorem exists_pos_of_sum_pos {l : List ℚ} (h : 0 < l.sum) : ∃ a ∈ l, 0 < a := by
  induction l with
  | nil => simp at h
  | cons a t ih =>
    by_cases ha : 0 < a
    · exact ⟨a, by simp, ha⟩
    · have : 0 < t.sum := by
        rw [List.sum_cons] at h
        push_neg at ha
        linarith
      obtain ⟨b, hb, hbpos⟩ := ih this
      exact ⟨b, by simp [hb], hbpos⟩

/-- If community `i` is structurally valid with positive total abundance, the
Bray-Curtis denominator for the pair `(i, j)` is positive. -/
theorem bcDen_pos (cs : List Community)
    (hab : ∀ c ∈ cs, ∀ a ∈ c.abundance, 0 ≤ a)
    {i j : ℕ} (hi : i < cs.length) (hj : j < cs.length)
    (hnd : (cs.getD i default).species.Nodup)
    (hlen : (cs.getD i default).species.length = (cs.getD i default).abundance.length)
    (hpos : 0 < (cs.getD i default).abundance.sum) :
    0 < ((speciesListP cs).map
      (fun s => abundanceOf (cs.getD i default) s + abundanceOf (cs.getD j default) s)).sum := by
  obtain ⟨a, ha, hapos⟩ := exists_pos_of_sum_pos hpos
  obtain ⟨k, hk, hka⟩ := List.getElem_of_mem ha
  have hks : k < (cs.getD i default).species.length := by omega
  have habi : abundanceOf (cs.getD i default) (cs.getD i default).species[k] = a := by
    rw [abundanceOf_getElem hnd hks, List.getD_eq_getElem _ _ hk, hka]
  have hterm : 0 < abundanceOf (cs.getD i default) (cs.getD i default).species[k] +
      abundanceOf (cs.getD j default) (cs.getD i default).species[k] := by
    have := abundanceOf_nonneg (c := cs.getD j default)
      (fun x hx => hab _ (getD_mem_of_lt hj) x hx) (cs.getD i default).species[k]
    rw [habi]
    linarith
  have hmem : abundanceOf (cs.getD i default) (cs.getD i default).species[k] +
      abundanceOf (cs.getD j default) (cs.getD i default).species[k] ∈
      (speciesListP cs).map
        (fun s => abundanceOf (cs.getD i default) s + abundanceOf (cs.getD j default) s) :=
    List.mem_map.mpr ⟨_, mem_speciesListP (getD_mem_of_lt hi) (List.getElem_mem hks), rfl⟩
  have hmono : ∀ x ∈ (speciesListP cs).map
      (fun s => abundanceOf (cs.getD i default) s + abundanceOf (cs.getD j default) s), 0 ≤ x := by
    intro x hx
    obtain ⟨s, _, rfl⟩ := List.mem_map.mp hx
    have h1 := abundanceOf_nonneg (c := cs.getD i default)
      (fun y hy => hab _ (getD_mem_of_lt hi) y hy) s
    have h2 := abundanceOf_nonneg (c := cs.getD j default)
      (fun y hy => hab _ (getD_mem_of_lt hj) y hy) s
    linarith
  exact lt_of_lt_of_le hterm (List.single_le_sum hmono _ hmem)

/-- Claim C3: identical species and abundance lists give dissimilarity `0`;
disjoint species sets with positive totals give dissimilarity `1`. -/
theorem brayCurtis_known_values (cs : List Community)
    (hab : ∀ c ∈ cs, ∀ a ∈ c.abundance, 0 ≤ a) (i j : ℕ) (hij : i ≠ j)
    (hi : i < cs.length) (hj : j < cs.length) :
    (((cs.getD i default).species = (cs.getD j default).species ∧
      (cs.getD i default).abundance = (cs.getD j default).abundance) →
      dEntry (buildDissimilarityMatrixP cs) i j = 0) ∧
    (((cs.getD i default).species.Nodup ∧
      (cs.getD i default).species.length = (cs.getD i default).abundance.length ∧
      0 < (cs.getD i default).abundance.sum ∧
      0 < (cs.getD j default).abundance.sum ∧
      (∀ s ∈ (cs.getD i default).species, s ∉ (cs.getD j default).species)) →
      dEntry (buildDissimilarityMatrixP cs) i j = 1) := by
  rw [dEntry_build, if_pos ⟨hi, hj⟩]
  constructor
  · rintro ⟨hsp, habq⟩
    have habf : ∀ s, abundanceOf (cs.getD j default) s = abundanceOf (cs.getD i default) s := by
      intro s
      unfold abundanceOf
      rw [hsp, habq]
    simp only [bcEntryP, if_neg hij]
    have hmin : (speciesListP cs).map
        (fun s => min (abundanceOf (cs.getD i default) s) (abundanceOf (cs.getD j default) s)) =
        (speciesListP cs).map (fun s => abundanceOf (cs.getD i default) s) :=
      List.map_congr_left fun s _ => by rw [habf s, min_self]
    have hadd : (speciesListP cs).map
        (fun s => abundanceOf (cs.getD i default) s + abundanceOf (cs.getD j default) s) =
        (speciesListP cs).map (fun s => 2 * abundanceOf (cs.getD i default) s) :=
      List.map_congr_left fun s _ => by rw [habf s]; ring
    rw [hmin, hadd, List.sum_map_mul_left]
    set S := ((speciesListP cs).map (fun s => abundanceOf (cs.getD i default) s)).sum with hS
    by_cases hpos : 0 < 2 * S
    · rw [if_pos hpos]
      rw [div_self (ne_of_gt hpos)]
      ring
    · rw [if_neg hpos]
  · rintro ⟨hnd, hlen, hposi, hposj, hdisj⟩
    have hden := bcDen_pos cs hab hi hj hnd hlen hposi
    simp only [bcEntryP, if_neg hij]
    rw [if_pos hden]
    have hnum : ((speciesListP cs).map
        (fun s => min (abundanceOf (cs.getD i default) s) (abundanceOf (cs.getD j default) s))).sum = 0 := by
      apply List.sum_eq_zero
      intro x hx
      obtain ⟨s, _, rfl⟩ := List.mem_map.mp hx
      have h2 := abundanceOf_nonneg (c := cs.getD j default)
        (fun y hy => hab _ (getD_mem_of_lt hj) y hy) s
      have h1 := abundanceOf_nonneg (c := cs.getD i default)
        (fun y hy => hab _ (getD_mem_of_lt hi) y hy) s
      by_cases hmem : s ∈ (cs.getD i default).species
      · have : abundanceOf (cs.getD j default) s = 0 := by
          unfold abundanceOf
          rw [if_neg (hdisj s hmem)]
        rw [this]
        exact min_eq_right h1
      · have : abundanceOf (cs.getD i default) s = 0 := by
          unfold abundanceOf
          rw [if_neg hmem]
        rw [this]
        exact min_eq_left h2
    rw [hnum]
    norm_num

/-- Witness for C3: two identical communities map to dissimilarity `0`, two
species-disjoint communities map to dissimilarity `1`. -/
theorem brayCurtis_known_values_witness :
    dEntry (buildDissimilarityMatrixP [Community.mk 1 [1, 2] [10, 10],
      Community.mk 2 [1, 2] [10, 10], Community.mk 3 [3, 4] [5, 5]]) 0 1 = 0 ∧
    dEntry (buildDissimilarityMatrixP [Community.mk 1 [1, 2] [10, 10],
      Community.mk 2 [1, 2] [10, 10], Community.mk 3 [3, 4] [5, 5]]) 0 2 = 1 :=
  ⟨(brayCurtis_known_values _ (by decide) 0 1 (by decide) (by decide) (by decide)).1
      (by decide),
   (brayCurtis_known_values _ (by decide) 0 2 (by decide) (by decide) (by decide)).2
      ⟨by decide, by decide, by norm_num [List.sum_cons], by norm_num [List.sum_cons],
        by decide⟩⟩

/-- Rescale every abundance value of a community by the constant `c`. -/
def scaleCom (c : ℚ) (com : Community) : Community :=
  Community.mk com.id com.species (com.abundance.map (fun a => c * a))

/-- Rescale every abundance value of every community by the constant `c`. -/
def scaleCommunities (c : ℚ) (cs : List Community) : List Community :=
  cs.map (scaleCom c)

theorem speciesListP_scale (c : ℚ) (cs : List Community) :
    speciesListP (scaleCommunities c cs) = speciesListP cs := by
  unfold speciesListP scaleCommunities
  rw [List.flatMap_map]
  rfl

theorem getD_map_scale (c : ℚ) (l : List ℚ) (k : ℕ) :
    (l.map (fun a => c * a)).getD k 0 = c * l.getD k 0 := by
  by_cases hk : k < l.length
  · rw [List.getD_eq_getElem _ _ (by simpa using hk), List.getD_eq_getElem _ _ hk]
    simp
  · rw [List.getD_eq_default _ _ (by simpa using Nat.le_of_not_lt hk),
      List.getD_eq_default _ _ (Nat.le_of_not_lt hk)]
    ring

theorem abundanceOf_scale (c : ℚ) (com : Community) (s : ℤ) :
    abundanceOf (scaleCom c com) s = c * abundanceOf com s := by
  unfold abundanceOf scaleCom
  by_cases hs : s ∈ com.species
  · simp only [hs, if_pos]
    exact getD_map_scale c com.abundance (com.species.indexOf s)
  · simp [hs]

theorem getD_scaleCommunities (c : ℚ) (cs : List Community) (i : ℕ) :
    (scaleCommunities c cs).getD i default = scaleCom c (cs.getD i default) := by
  by_cases hi : i < cs.length
  · unfold scaleCommunities
    rw [List.getD_eq_getElem _ _ (by simpa using hi), List.getD_eq_getElem _ _ hi]
    simp
  · unfold scaleCommunities
    rw [List.getD_eq_default _ _ (by simpa using Nat.le_of_not_lt hi),
      List.getD_eq_default _ _ (Nat.le_of_not_lt hi)]
    rfl

theorem mul_min_rat (c x y : ℚ) (hc : 0 ≤ c) : min (c * x) (c * y) = c * min x y := by
  rcases le_total x y with h | h
  · rw [min_eq_left h, min_eq_left (mul_le_mul_of_nonneg_left h hc)]
  · rw [min_eq_right h, min_eq_right (mul_le_mul_of_nonneg_left h hc)]

theorem bcEntryP_scale (cs : List Community) (c : ℚ) (hc : 0 < c) (i j : ℕ) :
    bcEntryP (scaleCommunities c cs) i j = bcEntryP cs i j := by
  unfold bcEntryP
  by_cases hij : i = j
  · simp [hij]
  · rw [if_neg hij, if_neg hij]
    dsimp only
    rw [speciesListP_scale, getD_scaleCommunities, getD_scaleCommunities]
    have hmin : (speciesListP cs).map (fun s =>
        min (abundanceOf (scaleCom c (cs.getD i default)) s)
            (abundanceOf (scaleCom c (cs.getD j default)) s)) =
        (speciesListP cs).map (fun s =>
          c * min (abundanceOf (cs.getD i default) s) (abundanceOf (cs.getD j default) s)) :=
      List.map_congr_left fun s _ => by
        rw [abundanceOf_scale, abundanceOf_scale, mul_min_rat _ _ _ (le_of_lt hc)]
    have hadd : (speciesListP cs).map (fun s =>
        abundanceOf (scaleCom c (cs.getD i default)) s +
        abundanceOf (scaleCom c (cs.getD j default)) s) =
        (speciesListP cs).map (fun s =>
          c * (abundanceOf (cs.getD i default) s + abundanceOf (cs.getD j default) s)) :=
      List.map_congr_left fun s _ => by
        rw [abundanceOf_scale, abundanceOf_scale]
        ring
    rw [hmin, hadd, List.sum_map_mul_left, List.sum_map_mul_left]
    set num := ((speciesListP cs).map (fun s =>
      min (abundanceOf (cs.getD i default) s) (abundanceOf (cs.getD j default) s))).sum
    set den := ((speciesListP cs).map (fun s =>
      abundanceOf (cs.getD i default) s + abundanceOf (cs.getD j default) s)).sum
    by_cases hden : 0 < den
    · rw [if_pos (by exact mul_pos hc hden), if_pos hden]
      have : 2 * (c * num) / (c * den) = 2 * num / den := by
        rw [div_eq_div_iff (ne_of_gt (mul_pos hc hden)) (ne_of_gt hden)]
        ring
      rw [this]
    · rw [if_neg ?_, if_neg hden]
      intro hcd
      exact hden ((mul_pos_iff_of_pos_left hc).mp hcd)

/-- Claim C4: multiplying every abundance in every community by the same
positive constant leaves the Bray-Curtis dissimilarity matrix unchanged. -/
theorem brayCurtis_scale_invariant (cs : List Community) (c : ℚ) (hc : 0 < c) :
    buildDissimilarityMatrixP (scaleCommunities c cs) = buildDissimilarityMatrixP cs := by
  unfold buildDissimilarityMatrixP
  have hlen : (scaleCommunities c cs).length = cs.length := List.length_map _ _
  rw [hlen]
  exact List.map_congr_left fun i _ =>
    List.map_congr_left fun j _ => bcEntryP_scale cs c hc i j

/-- Witness for C4 at a concrete community set and constant `2`. -/
theorem brayCurtis_scale_invariant_witness :
    (0 : ℚ) < 2 ∧
    buildDissimilarityMatrixP (scaleCommunities 2
        [Community.mk 1 [1] [3], Community.mk 2 [1, 2] [1, 4]]) =
      buildDissimilarityMatrixP [Community.mk 1 [1] [3], Community.mk 2 [1, 2] [1, 4]] :=
  ⟨by norm_num, brayCurtis_scale_invariant _ 2 (by norm_num)⟩

theorem list_sum_map_sub (sl : List ℤ) (f g : ℤ → ℚ) :
    (sl.map fun s => f s - g s).sum = (sl.map f).sum - (sl.map g).sum := by
  induction sl with
  | nil => simp
  | cons x xs ih =>
    simp only [List.map_cons, List.sum_cons, ih]
    ring

theorem list_sum_zero_mem {l : List ℚ} (h0 : ∀ x ∈ l, 0 ≤ x) (hs : l.sum = 0) :
    ∀ x ∈ l, x = 0 := by
  induction l with
  | nil => simp
  | cons a t ih =>
    have hta : 0 ≤ a := h0 a (by simp)
    have htt : 0 ≤ t.sum := List.sum_nonneg fun x hx => h0 x (by simp [hx])
    rw [List.sum_cons] at hs
    intro x hx
    rcases List.mem_cons.mp hx with rfl | hx2
    · linarith
    · exact ih (fun y hy => h0 y (by simp [hy])) (by linarith) x hx2

theorem pointwise_eq_of_bc_sums (sl : List ℤ) (x y : ℤ → ℚ)
    (heq : 2 * ((sl.map fun s => min (x s) (y s)).sum) = (sl.map fun s => x s + y s).sum) :
    ∀ s ∈ sl, x s = y s := by
  have hzero : ((sl.map fun s => (x s + y s) - 2 * min (x s) (y s)).sum) = 0 := by
    rw [list_sum_map_sub sl (fun s => x s + y s) (fun s => 2 * min (x s) (y s))]
    have : (sl.map fun s => 2 * min (x s) (y s)).sum =
        2 * ((sl.map fun s => min (x s) (y s)).sum) := List.sum_map_mul_left sl _ 2
    rw [this, ← heq]
    ring
  have hmem : ∀ t ∈ sl.map (fun s => (x s + y s) - 2 * min (x s) (y s)), t = 0 := by
    apply list_sum_zero_mem _ hzero
    intro t ht
    obtain ⟨s, _, rfl⟩ := List.mem_map.mp ht
    rcases le_total (x s) (y s) with h | h
    · rw [min_eq_left h]
      linarith
    · rw [min_eq_right h]
      linarith
  intro s hs
  have := hmem _ (List.mem_map.mpr ⟨s, hs, rfl⟩)
  rcases le_total (x s) (y s) with h | h
  · rw [min_eq_left h] at this
    linarith
  · rw [min_eq_right h] at this
    linarith

/-- Claim C10: zero Bray-Curtis dissimilarity between two distinct, valid
communities whose combined abundance is positive forces identical per-species
abundance over the whole species universe. -/
theorem brayCurtis_zero_implies_identical (cs : List Community)
    (hab : ∀ c ∈ cs, ∀ a ∈ c.abundance, 0 ≤ a) (i j : ℕ) (hij : i ≠ j)
    (hi : i < cs.length) (hj : j < cs.length)
    (hndi : (cs.getD i default).species.Nodup)
    (hleni : (cs.getD i default).species.length = (cs.getD i default).abundance.length)
    (hndj : (cs.getD j default).species.Nodup)
    (hlenj : (cs.getD j default).species.length = (cs.getD j default).abundance.length)
    (hpos : 0 < (cs.getD i default).abundance.sum + (cs.getD j default).abundance.sum)
    (h0 : dEntry (buildDissimilarityMatrixP cs) i j = 0) :
    ∀ s ∈ speciesListP cs,
      abundanceOf (cs.getD i default) s = abundanceOf (cs.getD j default) s := by
  rw [dEntry_build, if_pos ⟨hi, hj⟩] at h0
  simp only [bcEntryP, if_neg hij] at h0
  have hsumi : 0 ≤ (cs.getD i default).abundance.sum :=
    List.sum_nonneg fun a ha => hab _ (getD_mem_of_lt hi) a ha
  have hden : 0 < ((speciesListP cs).map
      (fun s => abundanceOf (cs.getD i default) s + abundanceOf (cs.getD j default) s)).sum := by
    by_cases hci : 0 < (cs.getD i default).abundance.sum
    · exact bcDen_pos cs hab hi hj hndi hleni hci
    · have hcj : 0 < (cs.getD j default).abundance.sum := by
        push_neg at hci
        linarith
      have hswap := bcDen_pos cs hab hj hi hndj hlenj hcj
      have hcomm : (speciesListP cs).map
          (fun s => abundanceOf (cs.getD j default) s + abundanceOf (cs.getD i default) s) =
          (speciesListP cs).map
          (fun s => abundanceOf (cs.getD i default) s + abundanceOf (cs.getD j default) s) :=
        List.map_congr_left fun s _ => add_comm _ _
      rwa [hcomm] at hswap
  rw [if_pos hden] at h0
  have h1 : 2 * ((speciesListP cs).map
      (fun s => min (abundanceOf (cs.getD i default) s) (abundanceOf (cs.getD j default) s))).sum /
      ((speciesListP cs).map
      (fun s => abundanceOf (cs.getD i default) s + abundanceOf (cs.getD j default) s)).sum = 1 := by
    linarith
  have h2 := (div_eq_one_iff_eq (ne_of_gt hden)).mp h1
  exact pointwise_eq_of_bc_sums (speciesListP cs)
    (abundanceOf (cs.getD i default)) (abundanceOf (cs.getD j default)) h2

/-- Witness for C10: two equal communities have dissimilarity `0` and indeed
identical abundance profiles. -/
theorem brayCurtis_zero_implies_identical_witness :
    dEntry (buildDissimilarityMatrixP [Community.mk 1 [1] [5], Community.mk 2 [1] [5]]) 0 1 = 0 ∧
    (∀ s ∈ speciesListP [Community.mk 1 [1] [5], Community.mk 2 [1] [5]],
      abundanceOf ([Community.mk 1 [1] [5], Community.mk 2 [1] [5]].getD 0 default) s =
      abundanceOf ([Community.mk 1 [1] [5], Community.mk 2 [1] [5]].getD 1 default) s) := by
  have hz : dEntry (buildDissimilarityMatrixP
      [Community.mk 1 [1] [5], Community.mk 2 [1] [5]]) 0 1 = 0 := by
    norm_num [dEntry, buildDissimilarityMatrixP, bcEntryP, speciesListP, sortAsc,
      insertAsc, abundanceOf, List.range_succ, List.dedup, List.flatMap,
      List.indexOf, List.findIdx_cons, List.findIdx_nil]
  exact ⟨hz, brayCurtis_zero_implies_identical _ (by decide) 0 1 (by decide) (by decide)
    (by decide) (by decide) (by decide) (by decide) (by decide)
    (by norm_num [List.sum_cons]) hz⟩

/-- Structural validity of a community following the `InvalidCommunity`
taxonomy of the specification (matching list lengths, no negative abundance,
positive total). The source components perform no such check; this definition
follows the specification wording so that the absence of validation can be
stated against it. -/
def specValidCommunity (c : Community) : Prop :=
  c.species.length = c.abundance.length ∧ (∀ a ∈ c.abundance, 0 ≤ a) ∧
    0 < c.abundance.sum

instance : DecidablePred specValidCommunity := fun c => by
  unfold specValidCommunity
  infer_instance

/-- Claim C8 counterexample: a zero-total community (invalid per the spec) is
not rejected — the builder returns a fully computed dissimilarity matrix for a
community list containing it. -/
theorem invalid_input_not_rejected :
    ¬ specValidCommunity (Community.mk 1 [1] [0]) ∧
    buildDissimilarityMatrixP [Community.mk 1 [1] [0], Community.mk 2 [2] [7]] =
      [[0, 1], [1, 0]] := by
  constructor
  · intro h
    have := h.2.2
    norm_num [List.sum_cons] at this
  · norm_num [buildDissimilarityMatrixP, bcEntryP, speciesListP, sortAsc, insertAsc,
      abundanceOf, dEntry, List.range_succ, List.dedup_cons_of_not_mem, List.indexOf]
    norm_num [List.flatMap, List.dedup, List.findIdx_cons, List.findIdx_nil]

/-- Claim C8 amended: the builder performs no validation and is total — it
returns an N-by-N matrix for every community list, including invalid ones. -/
theorem buildMatrix_total (cs : List Community) :
    (buildDissimilarityMatrixP cs).length = cs.length ∧
    ∀ row ∈ buildDissimilarityMatrixP cs, row.length = cs.length := by
  unfold buildDissimilarityMatrixP
  constructor
  · simp
  · intro row hrow
    obtain ⟨i, _, rfl⟩ := List.mem_map.mp hrow
    simp

/-- The sorted species universe of the NMDS component
(`NMDSVisualization.tsx` lines 21-26 and `part_005` lines 21-26; the source
text is duplicated verbatim from the PCoA component). -/
def speciesListN (cs : List Community) : List ℤ :=
  sortAsc (cs.flatMap Community.species).dedup

/-- Abundance lookup of the NMDS component (`NMDSVisualization.tsx`
lines 29-34). -/
def abundanceOfN (c : Community) (s : ℤ) : ℚ :=
  if s ∈ c.species then c.abundance.getD (c.species.indexOf s) 0 else 0

/-- One Bray-Curtis entry of the NMDS component (`NMDSVisualization.tsx`
lines 37-60). -/
def bcEntryN (cs : List Community) (i j : ℕ) : ℚ :=
  if i = j then 0 else
    let sl := speciesListN cs
    let ci := cs.getD i default
    let cj := cs.getD j default
    let num := (sl.map (fun s => min (abundanceOfN ci s) (abundanceOfN cj s))).sum
    let den := (sl.map (fun s => abundanceOfN ci s + abundanceOfN cj s)).sum
    if 0 < den then 1 - 2 * num / den else 0

/-- The Bray-Curtis dissimilarity matrix of the NMDS component. -/
def brayCurtisMatrixN (cs : List Community) : List (List ℚ) :=
  (List.range cs.length).map fun i =>
    (List.range cs.length).map fun j => bcEntryN cs i j

/-- Claim C9: the Bray-Curtis builders of the PCoA component and of the NMDS
component are the same function of the community list. -/
theorem brayCurtis_builders_agree (cs : List Community) :
    buildDissimilarityMatrixP cs = brayCurtisMatrixN cs := rfl

/-- One forward pooling step of the source PAV scan: starting from a running
sum `s` over `c` elements, keep absorbing the next value while the running
mean exceeds it (`part_005` lines 777-790 and 208-213). Returns the final
sum, count, and the remaining values. -/
def poolExtend (s : ℚ) (c : ℕ) : List ℚ → ℚ × ℕ × List ℚ
  | [] => (s, c, [])
  | y :: ys => if y < s / (c : ℚ) then poolExtend (s + y) (c + 1) ys else (s, c, y :: ys)

theorem poolExtend_rest_length (s : ℚ) (c : ℕ) (l : List ℚ) :
    (poolExtend s c l).2.2.length ≤ l.length := by
  induction l generalizing s c with
  | nil => simp [poolExtend]
  | cons y ys ih =>
    unfold poolExtend
    by_cases h : y < s / (c : ℚ)
    · rw [if_pos h]
      exact le_trans (ih _ _) (Nat.le_succ _)
    · rw [if_neg h]

/-- Fuel-driven driver of the forward PAV scan: pools are emitted left to
right, each pool filled with its arithmetic mean (`part_005` lines 770-799).
The fuel is the list length, which always suffices. -/
def pavRunAux : ℕ → List ℚ → List ℚ
  | 0, _ => []
  | _ + 1, [] => []
  | fuel + 1, x :: xs =>
    let p := poolExtend x 1 xs
    List.replicate p.2.1 (p.1 / (p.2.1 : ℚ)) ++ pavRunAux fuel p.2.2

/-- The forward PAV scan over values already arranged in rank order. -/
def pavRun (l : List ℚ) : List ℚ := pavRunAux l.length l

/-- Isotonic regression as implemented in the source (`part_005` lines
759-808): arrange the values in the supplied rank order, run the forward PAV
scan, then scatter the fitted values back to the original positions
(unassigned positions read as 0, the way the JavaScript `undefined` slots are
consumed downstream). -/
def isotonicRegression (values : List ℚ) (rankOrder : List ℕ) : List ℚ :=
  let inRank := rankOrder.map (fun oi => values.getD oi 0)
  let fitted := pavRun inRank
  (rankOrder.zip fitted).foldl (fun res p => res.set p.1 p.2)
    (List.replicate values.length 0)

/-- Reading a result list in the supplied rank order. -/
def readInRankOrder (out : List ℚ) (rankOrder : List ℕ) : List ℚ :=
  rankOrder.map (fun k => out.getD k 0)

/-- Claim C1 (code bug demonstration): on values `[4, 5, 0]` with the identity
rank order, the source PAV returns `[4, 5/2, 5/2]`, which is *not*
non-decreasing in rank order (a true PAV would back-merge to `[3, 3, 3]`);
the forward-only scan never revisits earlier pools. -/
theorem isotonicRegression_not_monotone :
    isotonicRegression [4, 5, 0] [0, 1, 2] = [4, 5/2, 5/2] ∧
    ¬ List.Chain' (· ≤ ·)
      (readInRankOrder (isotonicRegression [4, 5, 0] [0, 1, 2]) [0, 1, 2]) := by
  have heval : isotonicRegression [4, 5, 0] [0, 1, 2] = [4, 5/2, 5/2] := by
    norm_num [isotonicRegression, pavRun, pavRunAux, poolExtend, List.replicate,
      List.zip, List.zipWith, List.set]
  refine ⟨heval, ?_⟩
  rw [heval]
  intro h
  norm_num [readInRankOrder, List.chain'_cons] at h

/-- Dot product of two vectors paired by index (JavaScript `reduce` over
indices). -/
def dot (v w : List ℚ) : ℚ := ((v.zip w).map (fun p => p.1 * p.2)).sum

/-- Matrix-vector product, `newV[i] = Σ_j G[i][j] * v[j]`. -/
def matVec (M : List (List ℚ)) (v : List ℚ) : List ℚ := M.map (fun row => dot row v)

/-- Subtract from `v` its projection on `w` (one Gram-Schmidt step,
`PCAVisualization.tsx` lines 115-118 and 138-143). -/
def subProj (v w : List ℚ) : List ℚ :=
  ((v.zip w).map (fun p => p.1 - dot v w * p.2))

/-- Orthogonalize `v` against every previously found eigenvector in turn. -/
def orthAll (v : List ℚ) (prevs : List (List ℚ)) : List ℚ :=
  prevs.foldl subProj v

/-- Norm of a vector through the abstract square-root function. -/
def normVec (sq : ℚ → ℚ) (v : List ℚ) : ℚ := sq (dot v v)

/-- Sum of absolute component differences (the power-iteration convergence
measure of `PCAVisualization.tsx` line 153). -/
def sumAbsDiff (v w : List ℚ) : ℚ := ((v.zip w).map (fun p => |p.1 - p.2|)).sum

/-- The literal `1e-10` of the source. -/
def eps10 : ℚ := 1 / 10000000000

/-- The literal `1e-8` of the source. -/
def eps8 : ℚ := 1 / 100000000

/-- Power iteration with re-orthogonalization (`PCAVisualization.tsx` lines
127-156): multiply, re-orthogonalize against earlier eigenvectors, normalize
when the norm exceeds `1e-10`, and stop early from the second pass on when the
summed component change drops below `1e-8` (division by a zero norm is `0`
here where JavaScript would produce `NaN`). -/
def powerLoop (sq : ℚ → ℚ) (G : List (List ℚ)) (prevs : List (List ℚ)) :
    ℕ → ℕ → List ℚ → List ℚ
  | 0, _, v => v
  | fuel + 1, iter, v =>
    let newV := orthAll (matVec G v) prevs
    let newNorm := normVec sq newV
    let v2 := if eps10 < newNorm then newV.map (fun a => a / newNorm) else v
    if 0 < iter ∧ sumAbsDiff v2 (newV.map (fun a => a / newNorm)) < eps8 then v2
    else powerLoop sq G prevs fuel (iter + 1) v2

/-- Deflation `G ← G - λ·v·vᵀ` (`PCAVisualization.tsx` lines 172-176). -/
def deflate (G : List (List ℚ)) (lam : ℚ) (v : List ℚ) : List (List ℚ) :=
  (G.zip v).map (fun p => ((p.1.zip v).map (fun q => q.1 - lam * p.2 * q.2)))

/-- One component-extraction step (`PCAVisualization.tsx` lines 110-177):
seed the `k`-th standard basis vector, Gram-Schmidt it against previous
eigenvectors, normalize, refine by power iteration, read off the Rayleigh
quotient as eigenvalue, and deflate. -/
def pcoaStep (sq : ℚ → ℚ) (n : ℕ)
    (st : List (List ℚ) × List (List ℚ) × List ℚ) (k : ℕ) :
    List (List ℚ) × List (List ℚ) × List ℚ :=
  let G := st.1
  let vecs := st.2.1
  let vals := st.2.2
  let v0 : List ℚ := (List.range n).map (fun idx => if idx = k then 1 else 0)
  let v1 := orthAll v0 vecs
  let nrm := normVec sq v1
  let v2 := if eps10 < nrm then v1.map (fun a => a / nrm) else v1
  let v3 := powerLoop sq G vecs 200 0 v2
  let lam := dot v3 (matVec G v3)
  (deflate G lam v3, vecs ++ [v3], vals ++ [lam])

/-- Extract the first `min 2 n` eigenpairs by deflation. -/
def extractComponents (sq : ℚ → ℚ) (G0 : List (List ℚ)) (n : ℕ) :
    List (List ℚ) × List ℚ :=
  ((List.range (min 2 n)).foldl (pcoaStep sq n) (G0, [], [])).2

/-- Gower double centering of the squared dissimilarities
(`PCAVisualization.tsx` lines 87-100). -/
def gramFromD (D : List (List ℚ)) : List (List ℚ) :=
  let n := D.length
  let squared := D.map (fun row => row.map (fun v => v * v))
  let grandMean := (squared.map List.sum).sum / ((n : ℚ) * n)
  let rowMeans := squared.map (fun row => row.sum / (n : ℚ))
  let colMeans := (List.range n).map
    (fun j => (squared.map (fun row => row.getD j 0)).sum / (n : ℚ))
  squared.enum.map (fun p => p.2.enum.map (fun q =>
    -(1 / 2) * (q.2 - rowMeans.getD p.1 0 - colMeans.getD q.1 0 + grandMean)))

/-- Eigenvectors and eigenvalues of the PCoA main path for the matrix `D`. -/
def pcoaComponents (sq : ℚ → ℚ) (D : List (List ℚ)) : List (List ℚ) × List ℚ :=
  extractComponents sq (gramFromD D) D.length

/-- Percent variance explained per axis (`PCAVisualization.tsx` lines
195-202): positive eigenvalues only; index `k` of the *filtered* list, absent
or falsy entries contributing `0`; fallback `(50, 30)` when no positive
eigenvalue exists. -/
def explainedVariancePair (evs : List ℚ) : ℚ × ℚ :=
  if 0 < (evs.filter (fun v => decide (0 < v))).sum then
    ((evs.filter (fun v => decide (0 < v))).getD 0 0 /
        (evs.filter (fun v => decide (0 < v))).sum * 100,
     (evs.filter (fun v => decide (0 < v))).getD 1 0 /
        (evs.filter (fun v => decide (0 < v))).sum * 100)
  else (50, 30)

/-- Result record of the PCoA computation: 2-D coordinates and the
variance-explained statistics. -/
structure PcoaResult where
  coords : List (ℚ × ℚ)
  varExp1 : ℚ
  varExp2 : ℚ
  totalVar : ℚ
deriving DecidableEq

/-- The `n ≥ 3` eigen-extraction path of the PCoA computation
(`PCAVisualization.tsx` lines 80-211). Coordinates multiply each eigenvector
by the square root of its eigenvalue when positive, else `0`. -/
def computePCoAMain (sq : ℚ → ℚ) (D : List (List ℚ)) : PcoaResult :=
  let vecs := (pcoaComponents sq D).1
  let vals := (pcoaComponents sq D).2
  let ev := explainedVariancePair vals
  { coords := (List.range D.length).map (fun i =>
      ((if 0 < vals.getD 0 0 then (vecs.getD 0 []).getD i 0 * sq (vals.getD 0 0) else 0),
       (if 0 < vals.getD 1 0 then (vecs.getD 1 []).getD i 0 * sq (vals.getD 1 0) else 0))),
    varExp1 := ev.1,
    varExp2 := ev.2,
    totalVar := ev.1 + ev.2 }

/-- The PCoA computation over a dissimilarity matrix
(`PCAVisualization.tsx` lines 62-211): for fewer than 3 rows it falls back to
`Math.random()`-driven coordinates (draws `2i` and `2i+1` of the stream for
row `i`) with placeholder statistics `(50, 30)`; otherwise it runs the
deterministic eigen-extraction path. -/
def computePCoA (sq : ℚ → ℚ) (rand : ℕ → ℚ) (D : List (List ℚ)) : PcoaResult :=
  if D.length < 3 then
    { coords := (List.range D.length).map
        (fun i => (rand (2 * i) * 2 - 1, rand (2 * i + 1) * 2 - 1)),
      varExp1 := 50, varExp2 := 30, totalVar := 80 }
  else computePCoAMain sq D

theorem getD01_le_sum {l : List ℚ} (hpos : ∀ x ∈ l, 0 < x) :
    l.getD 0 0 + l.getD 1 0 ≤ l.sum := by
  match l with
  | [] => simp
  | [a] => simp
  | a :: b :: t =>
    have ht : 0 ≤ t.sum := List.sum_nonneg fun x hx => le_of_lt (hpos x (by simp [hx]))
    simp only [List.getD_cons_zero, List.getD_cons_succ, List.sum_cons]
    linarith

theorem explainedVariancePair_bound (evs : List ℚ) :
    (explainedVariancePair evs).1 + (explainedVariancePair evs).2 ≤ 100 := by
  unfold explainedVariancePair
  set pe := evs.filter (fun v => decide (0 < v)) with hpe
  have hpos : ∀ x ∈ pe, 0 < x := by
    intro x hx
    rw [hpe] at hx
    exact of_decide_eq_true (List.mem_filter.mp hx).2
  by_cases hT : 0 < pe.sum
  · rw [if_pos hT]
    have key := getD01_le_sum hpos
    have h1 : (pe.getD 0 0 + pe.getD 1 0) / pe.sum ≤ 1 := (div_le_one hT).mpr key
    calc pe.getD 0 0 / pe.sum * 100 + pe.getD 1 0 / pe.sum * 100
        = (pe.getD 0 0 + pe.getD 1 0) / pe.sum * 100 := by ring
      _ ≤ 1 * 100 := mul_le_mul_of_nonneg_right h1 (by norm_num)
      _ = 100 := by norm_num
  · rw [if_neg hT]
    norm_num

/-- Claim C6: the two per-axis variance-explained percentages of the PCoA fit
statistics always sum to at most 100, on the eigen path and on every
fallback. -/
theorem pcoa_variance_bound (sq : ℚ → ℚ) (rand : ℕ → ℚ) (D : List (List ℚ)) :
    (computePCoA sq rand D).varExp1 + (computePCoA sq rand D).varExp2 ≤ 100 := by
  unfold computePCoA
  by_cases h : D.length < 3
  · rw [if_pos h]
    norm_num
  · rw [if_neg h]
    show (explainedVariancePair (pcoaComponents sq D).2).1 +
      (explainedVariancePair (pcoaComponents sq D).2).2 ≤ 100
    exact explainedVariancePair_bound _

/-- Claim C5 (amended): on the eigen-extraction path (at least 3 rows) the
PCoA computation never consults the random stream, so two calls with any two
ambient random streams agree. -/
theorem computePCoA_deterministic (sq : ℚ → ℚ) (r1 r2 : ℕ → ℚ)
    (D : List (List ℚ)) (h : 3 ≤ D.length) :
    computePCoA sq r1 D = computePCoA sq r2 D := by
  unfold computePCoA
  rw [if_neg (by omega), if_neg (by omega)]

/-- Witness for the amended C5 at a concrete 3-by-3 matrix. -/
theorem computePCoA_deterministic_witness :
    3 ≤ ([[0, 0, 0], [0, 0, 0], [0, 0, 0]] : List (List ℚ)).length ∧
    computePCoA (fun _ => 0) (fun _ => 0) [[0, 0, 0], [0, 0, 0], [0, 0, 0]] =
      computePCoA (fun _ => 0) (fun _ => 1) [[0, 0, 0], [0, 0, 0], [0, 0, 0]] :=
  ⟨by norm_num, computePCoA_deterministic _ _ _ _ (by norm_num)⟩

/-- Claim C5 counterexample: on a 1-by-1 matrix the `n < 3` fallback consumes
`Math.random()`, so two calls that see different ambient random draws return
different coordinates. -/
theorem computePCoA_random_fallback_differs :
    (computePCoA (fun _ => 0) (fun _ => 0) [[0]]).coords ≠
      (computePCoA (fun _ => 0) (fun _ => 1) [[0]]).coords := by
  norm_num [computePCoA, List.range_succ]

/-- Stable insertion: `x` goes after every element `y` with `le y x`. -/
def stableInsert {α : Type} (le : α → α → Bool) (x : α) : List α → List α
  | [] => [x]
  | y :: ys => if le y x then y :: stableInsert le x ys else x :: y :: ys

/-- Stable insertion sort, modelling the (stable) JavaScript `Array.sort`
with an ascending comparator. -/
def stableSort {α : Type} (le : α → α → Bool) (l : List α) : List α :=
  l.foldl (fun acc x => stableInsert le x acc) []

/-- Row-major list of the index pairs `(i, j)` with `i < j < n` (`part_005`
lines 106-111). -/
def pairIndicesOf (n : ℕ) : List (ℕ × ℕ) :=
  (List.range n).flatMap (fun i => ((List.range n).drop (i + 1)).map (fun j => (i, j)))

/-- The rank map of `part_005` lines 113-117: sort the dissimilarities
ascending (stably) and record `(originalIndex, rank)`. -/
def rankOrderOf (diss : List ℚ) : List (ℕ × ℕ) :=
  ((stableSort (fun a b => decide (a.1 ≤ b.1))
      (diss.enum.map (fun p => (p.2, p.1)))).enum).map (fun q => (q.2.2, q.1))

/-- Pool Adjacent Violators of the NMDS component (`part_005` lines 186-225):
look up each distance's rank (`?.rank || 0` reads as 0 on a missed lookup),
sort by rank, run the forward pooling scan, and scatter the pooled values
back by original index (unassigned slots read as 0). -/
def poolAdjacentViolatorsN (ro : List (ℕ × ℕ)) (distances : List ℚ) : List ℚ :=
  if distances = [] then [] else
    let pairs := distances.enum.map (fun p =>
      (p.2, (((ro.find? (fun r => r.1 == p.1)).map Prod.snd).getD 0, p.1)))
    let sorted := stableSort (fun a b => decide (a.2.1 ≤ b.2.1)) pairs
    let fitted := pavRun (sorted.map Prod.fst)
    ((sorted.map (fun p => p.2.2)).zip fitted).foldl
      (fun res p => res.set p.1 p.2) (List.replicate distances.length 0)

/-- Pairwise configuration distances with the `+ 1e-10` guard (`part_005`
lines 229-237). -/
def configDistances (sq : ℚ → ℚ) (pairIdxs : List (ℕ × ℕ))
    (config : List (ℚ × ℚ)) : List ℚ :=
  pairIdxs.map (fun p =>
    ((sq (((config.getD p.1 (0, 0)).1 - (config.getD p.2 (0, 0)).1) *
          ((config.getD p.1 (0, 0)).1 - (config.getD p.2 (0, 0)).1) +
          ((config.getD p.1 (0, 0)).2 - (config.getD p.2 (0, 0)).2) *
          ((config.getD p.1 (0, 0)).2 - (config.getD p.2 (0, 0)).2))) + eps10))

/-- Kruskal stress-1 of a configuration (`part_005` lines 228-251); an empty
or all-zero denominator returns `1.0`. -/
def calculateStressN (sq : ℚ → ℚ) (ro pairIdxs : List (ℕ × ℕ))
    (config : List (ℚ × ℚ)) : ℚ :=
  let distances := configDistances sq pairIdxs config
  let fitted := poolAdjacentViolatorsN ro distances
  let num := ((distances.zip fitted).map (fun p => (p.1 - p.2) * (p.1 - p.2))).sum
  let den := (distances.map (fun d => d * d)).sum
  if 0 < den then sq (num / den) else 1

/-- Power-method eigenvector approximation of the NMDS PCoA initializer
(`part_005` lines 152-168); a zero norm divides by `1` (`norm || 1`). -/
def getEigenVecN (sq : ℚ → ℚ) (M : List (List ℚ)) : ℕ → List ℚ → List ℚ
  | 0, v => v
  | fuel + 1, v =>
    let newV := matVec M v
    let nrm := normVec sq newV
    getEigenVecN sq M fuel (newV.map (fun x => x / (if nrm = 0 then 1 else nrm)))

/-- Maximum of a list (`Math.max(...l)`); reachable uses are on non-empty
lists (an empty spread would give `-Infinity` in JavaScript). -/
def listMax (l : List ℚ) : ℚ :=
  match l with
  | [] => 0
  | h :: t => t.foldl max h

/-- Minimum of a list (`Math.min(...l)`). -/
def listMin (l : List ℚ) : ℚ :=
  match l with
  | [] => 0
  | h :: t => t.foldl min h

/-- PCoA-style initial configuration of `part_005` lines 120-184: a
similarity matrix rebuilt through `findIndex` over the pair list, double
centering via row means, and two power-method components seeded from the
random stream (draws `base..base+n-1` and `base+n..base+2n-1`). -/
def performPCoAInit (sq : ℚ → ℚ) (rand : ℕ → ℚ) (base n : ℕ)
    (diss : List ℚ) (pairIdxs : List (ℕ × ℕ)) : List (ℚ × ℚ) :=
  let maxDissim := listMax diss
  let simMatrix := (List.range n).map (fun i => (List.range n).map (fun j =>
    if i = j then 1
    else
      match (if i < j then pairIdxs.findIdx? (fun q => q.1 == i && q.2 == j)
             else pairIdxs.findIdx? (fun q => q.1 == j && q.2 == i)) with
      | some k => 1 - diss.getD k 0 / maxDissim
      | none => 0))
  let rowMeans := simMatrix.map (fun row => row.sum / (n : ℚ))
  let grandMean := rowMeans.sum / (n : ℚ)
  let centered := simMatrix.enum.map (fun p => p.2.enum.map (fun q =>
    q.2 - rowMeans.getD p.1 0 - rowMeans.getD q.1 0 + grandMean))
  let eigen1 := getEigenVecN sq centered 50
    ((List.range n).map (fun i => rand (base + i) - 1 / 2))
  let deflated := centered.enum.map (fun p => p.2.enum.map (fun q =>
    q.2 - eigen1.getD p.1 0 * eigen1.getD q.1 0))
  let eigen2 := getEigenVecN sq deflated 50
    ((List.range n).map (fun i => rand (base + n + i) - 1 / 2))
  (eigen1.zip eigen2).map (fun p => (p.1 * 2, p.2 * 2))

/-- Starting configuration per attempt (`part_005` lines 261-280): PCoA
initialization, three random spreads, then offset random layouts. -/
def initialConfigN (sq : ℚ → ℚ) (rand : ℕ → ℚ) (base n attempt : ℕ)
    (diss : List ℚ) (pairIdxs : List (ℕ × ℕ)) : List (ℚ × ℚ) :=
  if attempt = 0 then performPCoAInit sq rand base n diss pairIdxs
  else if attempt = 1 then
    (List.range n).map (fun i =>
      ((rand (base + 2 * i) - 1 / 2) * 4, (rand (base + 2 * i + 1) - 1 / 2) * 4))
  else if attempt = 2 then
    (List.range n).map (fun i =>
      ((rand (base + 2 * i) - 1 / 2) * 2, (rand (base + 2 * i + 1) - 1 / 2) * 2))
  else if attempt = 3 then
    (List.range n).map (fun i =>
      ((rand (base + 2 * i) - 1 / 2) * 6, (rand (base + 2 * i + 1) - 1 / 2) * 6))
  else
    (List.range n).map (fun i =>
      ((rand (base + 2 * i) - 1 / 2) * (2 + ((attempt : ℚ) - 4) * (3 / 2)) +
        (if i % 2 = 0 then (1 : ℚ) / 2 else -(1 / 2)),
       (rand (base + 2 * i + 1) - 1 / 2) * (2 + ((attempt : ℚ) - 4) * (3 / 2)) +
        (if (i / 2) % 2 = 0 then (1 : ℚ) / 2 else -(1 / 2))))

/-- Degenerate-start repair (`part_005` lines 282-291): when either axis
range of the starting configuration is below `0.1`, replace that axis with a
structured spread. -/
def fixDegenerateStart (n : ℕ) (config : List (ℚ × ℚ)) : List (ℚ × ℚ) :=
  let xR := listMax (config.map Prod.fst) - listMin (config.map Prod.fst)
  let yR := listMax (config.map Prod.snd) - listMin (config.map Prod.snd)
  if xR < 1 / 10 ∨ yR < 1 / 10 then
    config.enum.map (fun p =>
      ((if xR < 1 / 10 then ((p.1 : ℚ) - (n : ℚ) / 2) * (1 / 2) else p.2.1),
       (if yR < 1 / 10 then (((p.1 % 2 : ℕ) : ℚ) - 1 / 2) * 2 else p.2.2)))
  else config

/-- Per-pair gradient accumulation (`part_005` lines 328-351): for each pair
with `currentDist > 1e-10`, add `2·(target - current)/current` times the
displacement to point `i` and subtract it from point `j`. -/
def gradStep (pairIdxs : List (ℕ × ℕ)) (config : List (ℚ × ℚ))
    (distances fitted : List ℚ) (n : ℕ) : List (ℚ × ℚ) :=
  pairIdxs.enum.foldl (fun g q =>
    let dx := (config.getD q.2.1 (0, 0)).1 - (config.getD q.2.2 (0, 0)).1
    let dy := (config.getD q.2.1 (0, 0)).2 - (config.getD q.2.2 (0, 0)).2
    let currentDist := distances.getD q.1 0
    let targetDist := fitted.getD q.1 0
    if eps10 < currentDist then
      let factor := 2 * (targetDist - currentDist) / currentDist
      let g1 := g.set q.2.1 ((g.getD q.2.1 (0, 0)).1 + factor * dx,
                             (g.getD q.2.1 (0, 0)).2 + factor * dy)
      g1.set q.2.2 ((g1.getD q.2.2 (0, 0)).1 - factor * dx,
                    (g1.getD q.2.2 (0, 0)).2 - factor * dy)
    else g) (List.replicate n (0, 0))

/-- One NMDS optimization attempt (`part_005` lines 293-367): up to 300
iterations of stress evaluation, stagnation counting (tolerance `1e-5`,
break after more than 15 stagnant steps), gradient descent with step size
`max(0.01, 0.2·exp(-iter/100))`, and an axis-collapse break after iteration
20. Returns the final configuration and iteration count. -/
def nmdsInner (sq ex : ℚ → ℚ) (ro pairIdxs : List (ℕ × ℕ)) (n : ℕ) :
    ℕ → ℕ → Option ℚ → ℕ → ℕ → List (ℚ × ℚ) → List (ℚ × ℚ) × ℕ
  | 0, _, _, _, iterations, config => (config, iterations)
  | fuel + 1, iter, prevStress, stagnation, _, config =>
    let iterations := iter + 1
    let distances := configDistances sq pairIdxs config
    let fitted := poolAdjacentViolatorsN ro distances
    let currentStress := calculateStressN sq ro pairIdxs config
    let conv : Bool :=
      match prevStress with
      | none => false
      | some p => decide (|p - currentStress| < 1 / 100000)
    let stagnation2 := if conv then stagnation + 1 else 0
    if conv ∧ 15 < stagnation2 then (config, iterations)
    else
      let stepSize := max (1 / 100) (1 / 5 * ex (-(iter : ℚ) / 100))
      let grads := gradStep pairIdxs config distances fitted n
      let config2 := (config.zip grads).map (fun p =>
        (p.1.1 + stepSize * p.2.1, p.1.2 + stepSize * p.2.2))
      let xR := listMax (config2.map Prod.fst) - listMin (config2.map Prod.fst)
      let yR := listMax (config2.map Prod.snd) - listMin (config2.map Prod.snd)
      if 20 < iter ∧ (xR < 1 / 20 ∨ yR < 1 / 20) then (config2, iterations)
      else nmdsInner sq ex ro pairIdxs n fuel (iter + 1) (some currentStress)
        stagnation2 iterations config2

/-- The multi-start attempt loop (`part_005` lines 253-385): seven attempts,
each initialized, repaired, optimized, then validated (`stress` improves and
both axis ranges exceed `0.05`); an accepted stress below `0.15` stops the
search early. The carried `Option ℚ` is the best stress so far (`none`
models the initial JavaScript `Infinity`); the random stream is consumed in
a disjoint block of indices per attempt. -/
def nmdsAttempts (sq ex : ℚ → ℚ) (rand : ℕ → ℚ) (ro pairIdxs : List (ℕ × ℕ))
    (diss : List ℚ) (n : ℕ) : ℕ → ℕ → Option ℚ × ℕ → Option ℚ × ℕ
  | 0, _, best => best
  | fuel + 1, attempt, best =>
    let config0 := initialConfigN sq rand (attempt * (2 * n)) n attempt diss pairIdxs
    let config1 := fixDegenerateStart n config0
    let r := nmdsInner sq ex ro pairIdxs n 300 0 none 0 0 config1
    let finalStress := calculateStressN sq ro pairIdxs r.1
    let xR := listMax (r.1.map Prod.fst) - listMin (r.1.map Prod.fst)
    let yR := listMax (r.1.map Prod.snd) - listMin (r.1.map Prod.snd)
    let better : Bool :=
      match best.1 with
      | none => true
      | some b => decide (finalStress < b)
    if better ∧ 1 / 20 < xR ∧ 1 / 20 < yR then
      if finalStress < 3 / 20 then (some finalStress, r.2)
      else nmdsAttempts sq ex rand ro pairIdxs diss n fuel (attempt + 1)
        (some finalStress, r.2)
    else nmdsAttempts sq ex rand ro pairIdxs diss n fuel (attempt + 1) best

/-- Concatenation of the strict upper-triangle entries that are positive
(`brayCurtis.flatMap((row, i) => row.slice(i + 1).filter(v => v > 0))`,
`part_005` lines 81-83). -/
def flatPosAux : ℕ → List (List ℚ) → List ℚ
  | _, [] => []
  | i, row :: rest =>
    (row.drop (i + 1)).filter (fun v => decide (0 < v)) ++ flatPosAux (i + 1) rest

/-- All positive upper-triangle dissimilarities. -/
def flatPositiveUpper (bc : List (List ℚ)) : List ℚ := flatPosAux 0 bc

/-- The insufficient-variation guard of `part_005` lines 80-100: at least 3
communities and a positive-dissimilarity range below `1e-6`. When no positive
dissimilarity exists the guard also fires: in JavaScript the empty spreads
give `Math.max() = -Infinity` and `Math.min() = +Infinity`, so the range is
`-Infinity`, which is `< 1e-6`. -/
def insufficientVariation (cs : List Community) : Bool :=
  if cs.length < 3 then false
  else
    match flatPositiveUpper (brayCurtisMatrixN cs) with
    | [] => true
    | h :: t => decide ((t.foldl max h) - (t.foldl min h) < 1 / 1000000)

/-- NMDS summary statistics (`nmdsStats`): stress (`none` models the
JavaScript `Infinity` kept when no attempt is accepted), the convergence
flag, and the iteration count. -/
structure NmdsStats where
  stress : Option ℚ
  converged : Bool
  iterations : ℕ
deriving DecidableEq

/-- Build the reported statistics from the best attempt (`part_005` lines
440-448): `converged := bestStress < 0.2`, which is false for `Infinity`. -/
def nmdsStatsOfBest (best : Option ℚ × ℕ) : NmdsStats :=
  { stress := best.1,
    converged :=
      match best.1 with
      | some s => decide (s < 1 / 5)
      | none => false,
    iterations := best.2 }

/-- The statistics returned by the NMDS component of `part_005` (first
variant, lines 19-448): the `n < 3` fallback reports `(0.05, true, 1)`, the
insufficient-variation fallback reports `(0.1, false, 0)`, and the main path
reports the best attempt with `converged := bestStress < 0.2`. -/
def computeNMDSStats (sq ex : ℚ → ℚ) (rand : ℕ → ℚ) (cs : List Community) :
    NmdsStats :=
  if cs.length < 3 then { stress := some (1 / 20), converged := true, iterations := 1 }
  else if insufficientVariation cs then
    { stress := some (1 / 10), converged := false, iterations := 0 }
  else
    let n := cs.length
    let bc := brayCurtisMatrixN cs
    let pairIdxs := pairIndicesOf n
    let diss := pairIdxs.map (fun p => dEntry bc p.1 p.2)
    nmdsStatsOfBest
      (nmdsAttempts sq ex rand (rankOrderOf diss) pairIdxs diss n 7 0 (none, 0))

theorem nmdsStatsOfBest_iff (best : Option ℚ × ℕ) :
    ((nmdsStatsOfBest best).converged = true ↔
      ∃ s, (nmdsStatsOfBest best).stress = some s ∧ s < 1 / 5) := by
  unfold nmdsStatsOfBest
  rcases best with ⟨st, it⟩
  rcases st with _ | v
  · simp
  · simp [decide_eq_true_iff]

/-- Claim C7 (amended): away from the insufficient-variation fallback — that
is, on the `n < 3` fallback and on the optimization path — the reported
`converged` flag is true exactly when the reported stress is below `0.2`. -/
theorem nmds_converged_iff_stress (sq ex : ℚ → ℚ) (rand : ℕ → ℚ)
    (cs : List Community) (h : insufficientVariation cs = false) :
    ((computeNMDSStats sq ex rand cs).converged = true ↔
      ∃ s, (computeNMDSStats sq ex rand cs).stress = some s ∧ s < 1 / 5) := by
  unfold computeNMDSStats
  by_cases h3 : cs.length < 3
  · rw [if_pos h3]
    constructor
    · intro _
      exact ⟨1 / 20, rfl, by norm_num⟩
    · intro _
      rfl
  · rw [if_neg h3]
    simp only [h, Bool.false_eq_true, if_false]
    exact nmdsStatsOfBest_iff _

/-- Witness for the amended C7 at a single-community input (the `n < 3`
fallback path). -/
theorem nmds_converged_iff_stress_witness :
    insufficientVariation [Community.mk 1 [1] [5]] = false ∧
    ((computeNMDSStats (fun _ => 0) (fun _ => 0) (fun _ => 0)
        [Community.mk 1 [1] [5]]).converged = true ↔
      ∃ s, (computeNMDSStats (fun _ => 0) (fun _ => 0) (fun _ => 0)
        [Community.mk 1 [1] [5]]).stress = some s ∧ s < 1 / 5) :=
  ⟨rfl, nmds_converged_iff_stress _ _ _ _ rfl⟩

/-- Claim C7 counterexample: three pairwise species-disjoint communities give
an all-ones dissimilarity matrix, so the insufficient-variation fallback
fires and reports stress `0.1` with `converged = false`, although
`0.1 < 0.2` — the biconditional `converged ↔ stress < 0.2` fails there. -/
theorem nmds_fallback_converged_mismatch :
    computeNMDSStats (fun _ => 0) (fun _ => 0) (fun _ => 0)
      [Community.mk 1 [1] [10], Community.mk 2 [2] [10], Community.mk 3 [3] [10]] =
      { stress := some (1 / 10), converged := false, iterations := 0 } ∧
    (1 : ℚ) / 10 < 1 / 5 := by
  constructor
  · have hvar : insufficientVariation
        [Community.mk 1 [1] [10], Community.mk 2 [2] [10], Community.mk 3 [3] [10]] =
        true := by
      norm_num [insufficientVariation, flatPositiveUpper, flatPosAux, brayCurtisMatrixN,
        bcEntryN, speciesListN, sortAsc, insertAsc, abundanceOfN, List.range_succ,
        List.dedup, List.flatMap, List.findIdx_cons, List.findIdx_nil, List.indexOf]
    unfold computeNMDSStats
    rw [if_neg (by norm_num)]
    simp only [hvar, if_true]
  · norm_num
end Diversity
